import Mathlib

/-
Verification of the vlk-zakrevskoho queue-prediction subsystem.

Shallow embedding conventions used throughout this file:
* A calendar date is represented by its signed day offset from the anchor
  date 1970-01-05 (a Monday), so `weekday d = d % 7` with 0 = Monday,
  ..., 4 = Friday, 5 = Saturday, 6 = Sunday.  Python floor division `//`
  and `%` by a positive divisor coincide with Lean `Int` `/` and `%`
  (Euclidean division).
* Python floats are modelled by exact rationals; transcendental library
  routines (numpy exp, scipy sqrt / Student-t ppf and cdf) are abstracted
  as oracle parameters, because every property proved here holds for all
  values these routines can return.  A scipy call that raises is modelled
  by the cdf oracle returning `none`.
* Strings are modelled as `List Char`.
-/

namespace Vlk

/-! ## Calendar ordinal mapper (src/vlk_bot/utils.py) -/

/-- Embeds `get_ordinal_date` from src/vlk_bot/utils.py.
`diff` is the day offset of the input date from the anchor 1970-01-05:
`weeks = diff // 7; days = diff % 7; return weeks * 5 + min(days, 5)`. -/
def get_ordinal_date (diff : Int) : Int :=
  diff / 7 * 5 + min (diff % 7) 5

/-- Python `int()` truncation toward zero on a rational. -/
def pyTrunc (q : ℚ) : Int :=
  if 0 ≤ q then ⌊q⌋ else ⌈q⌉

/-- Embeds `get_date_from_ordinal` from src/vlk_bot/utils.py, which first
truncates its (possibly float) argument with `int(...)`:
`weeks = int(ordinal) // 5; days = int(ordinal) % 5;
 return anchor + timedelta(weeks * 7 + days)`.
The result is the day offset of the returned date from the anchor. -/
def get_date_from_ordinal (ordinal : ℚ) : Int :=
  pyTrunc ordinal / 5 * 7 + pyTrunc ordinal % 5

theorem pyTrunc_intCast (n : Int) : pyTrunc (n : ℚ) = n := by
  unfold pyTrunc
  split <;> simp

theorem le_pyTrunc {n : Int} {q : ℚ} (h : (n : ℚ) ≤ q) : n ≤ pyTrunc q := by
  unfold pyTrunc
  split
  · exact Int.le_floor.mpr h
  · exact le_trans (Int.le_floor.mpr h) (Int.floor_le_ceil q)

/-- Going from an ordinal to a date always lands on a business day, and
taking the ordinal of that date recovers the truncated ordinal. -/
theorem ordinal_of_date_from_ordinal (q : ℚ) :
    get_ordinal_date (get_date_from_ordinal q) = pyTrunc q := by
  unfold get_ordinal_date get_date_from_ordinal
  generalize pyTrunc q = t
  simp only [min_def]
  split_ifs <;> omega

/-- C3: on business days (weekday Monday..Friday, i.e. `d % 7 ≤ 4`) the
ordinal mapping round-trips exactly: `get_date_from_ordinal (get_ordinal_date d) = d`. -/
theorem ordinal_roundtrip_business_day (d : Int) (h : d % 7 ≤ 4) :
    get_date_from_ordinal ((get_ordinal_date d : Int) : ℚ) = d := by
  unfold get_date_from_ordinal get_ordinal_date
  rw [pyTrunc_intCast]
  simp only [min_def]
  split_ifs <;> omega

/-- Witness for C3 at the anchor Monday (offset 0) and at 1970-01-09 (Friday, offset 4). -/
theorem ordinal_roundtrip_business_day_witness :
    (0:Int) % 7 ≤ 4 ∧ (4:Int) % 7 ≤ 4 ∧
    get_date_from_ordinal ((get_ordinal_date 0 : Int) : ℚ) = 0 ∧
    get_date_from_ordinal ((get_ordinal_date 4 : Int) : ℚ) = 4 :=
  ⟨by decide, by decide,
   ordinal_roundtrip_business_day 0 (by decide),
   ordinal_roundtrip_business_day 4 (by decide)⟩

/-- C2 counterexample: 1970-01-10 (day offset 5 from the anchor Monday
1970-01-05) is a Saturday (`% 7 = 5`), its preceding Friday 1970-01-09
has offset 4, yet `get_ordinal_date` sends the Saturday to 5 and the Friday
to 4 — the weekend does NOT collapse backward onto the preceding Fridays ordinal.
(The repository test suite itself asserts `get_ordinal_date(1970-01-10) == 5`.) -/
theorem weekend_collapse_counterexample :
    (5:Int) % 7 = 5 ∧ (4:Int) % 7 = 4 ∧
    get_ordinal_date 5 = 5 ∧ get_ordinal_date 4 = 4 ∧
    get_ordinal_date 5 ≠ get_ordinal_date 4 :=
  ⟨by decide, by decide, by decide, by decide, by decide⟩

/-- C2 amended: for every Saturday `s` (`% 7 = 5`),
`get_ordinal_date s = get_ordinal_date (preceding Friday) + 1`, and the same
for every Sunday (`% 7 = 6`, preceding Friday is two days back): weekends
collapse forward onto the FOLLOWING Mondays ordinal, one past Fridays. -/
theorem weekend_collapse_forward (d : Int) :
    (d % 7 = 5 → get_ordinal_date d = get_ordinal_date (d - 1) + 1) ∧
    (d % 7 = 6 → get_ordinal_date d = get_ordinal_date (d - 2) + 1) := by
  unfold get_ordinal_date
  simp only [min_def]
  constructor <;> intro h <;> split_ifs <;> omega

/-- Witness for the amended C2 at the Saturday 1970-01-10 (offset 5)
and the Sunday 1970-01-11 (offset 6). -/
theorem weekend_collapse_forward_witness :
    (5:Int) % 7 = 5 ∧ get_ordinal_date 5 = get_ordinal_date (5 - 1) + 1 ∧
    (6:Int) % 7 = 6 ∧ get_ordinal_date 6 = get_ordinal_date (6 - 2) + 1 :=
  ⟨by decide, (weekend_collapse_forward 5).1 (by decide),
   by decide, (weekend_collapse_forward 6).2 (by decide)⟩

/-! ## List helpers for the string model -/

theorem takeWhile_eq_self_of {α : Type} {p : α → Bool} {l : List α}
    (h : ∀ c ∈ l, p c = true) : l.takeWhile p = l := by
  induction l with
  | nil => rfl
  | cons c t ih =>
    simp only [List.takeWhile_cons, h c (List.mem_cons_self c t), if_true]
    exact congrArg (c :: ·) (ih fun x hx => h x (List.mem_cons_of_mem c hx))

theorem dropWhile_eq_nil_of {α : Type} {p : α → Bool} {l : List α}
    (h : ∀ c ∈ l, p c = true) : l.dropWhile p = [] := by
  induction l with
  | nil => rfl
  | cons c t ih =>
    simp only [List.dropWhile_cons, h c (List.mem_cons_self c t), if_true]
    exact ih fun x hx => h x (List.mem_cons_of_mem c hx)

theorem dropWhile_eq_self_of {α : Type} {p : α → Bool} {l : List α}
    (h : ∀ c ∈ l, p c = false) : l.dropWhile p = l := by
  cases l with
  | nil => rfl
  | cons c t => simp [List.dropWhile_cons, h c (List.mem_cons_self c t)]

theorem takeWhile_append_all {α : Type} {p : α → Bool} {l r : List α}
    (h : ∀ c ∈ l, p c = true) : (l ++ r).takeWhile p = l ++ r.takeWhile p := by
  induction l with
  | nil => rfl
  | cons c t ih =>
    simp only [List.cons_append, List.takeWhile_cons,
      h c (List.mem_cons_self c t), if_true]
    exact congrArg (c :: ·) (ih fun x hx => h x (List.mem_cons_of_mem c hx))

theorem dropWhile_append_all {α : Type} {p : α → Bool} {l r : List α}
    (h : ∀ c ∈ l, p c = true) : (l ++ r).dropWhile p = r.dropWhile p := by
  induction l with
  | nil => rfl
  | cons c t ih =>
    simp only [List.cons_append, List.dropWhile_cons,
      h c (List.mem_cons_self c t), if_true]
    exact ih fun x hx => h x (List.mem_cons_of_mem c hx)

/-! ## Identifier normalizer (src/vlk_bot/utils.py, id_to_numeric) -/

/-- Python `str.strip()`: remove leading and trailing whitespace. -/
def pyStrip (s : List Char) : List Char :=
  ((s.dropWhile Char.isWhitespace).reverse.dropWhile Char.isWhitespace).reverse

/-- Value of a digit string read in base 10 (the exact value Python
`int()` / `float()` return on a plain digit literal). -/
def digitsToNat (s : List Char) : Nat :=
  s.foldl (fun a c => a * 10 + (c.toNat - 48)) 0

/-- Python `str.isdigit()`: nonempty and every character a digit
(modelled for ASCII digits, the only digits identifiers contain). -/
def pyIsdigit (s : List Char) : Bool :=
  !s.isEmpty && s.all Char.isDigit

/-- Python `int(str)` restricted to the literal forms that occur here:
optional sign followed by digits; `none` models a raised `ValueError`.
(Underscore separators and surrounding whitespace inside exotic literals
are not modelled; identifier strings never contain them.) -/
def pyInt (s : List Char) : Option Int :=
  match pyStrip s with
  | [] => none
  | c :: r =>
    if c = '-' then (if pyIsdigit r then some (-(digitsToNat r : Int)) else none)
    else if c = '+' then (if pyIsdigit r then some ((digitsToNat r : Int)) else none)
    else if pyIsdigit (c :: r) then some ((digitsToNat (c :: r) : Int)) else none

/-- The values Python `float(str)` can produce, with finite values kept
exact: a finite rational, a signed infinity, or nan. -/
inductive PyFloat
  | finite (q : ℚ)
  | infinite (neg : Bool)
  | nan
deriving DecidableEq

/-- ASCII-only lowercasing, as used by `float()`'s case-insensitive
matching of the "inf" / "infinity" / "nan" words. -/
def asciiLowerChar (c : Char) : Char :=
  if 65 ≤ c.toNat ∧ c.toNat ≤ 90 then Char.ofNat (c.toNat + 32) else c

def asciiLower (s : List Char) : List Char := s.map asciiLowerChar

/-- Python `float(str)`: optional sign, then either one of the
case-insensitive words inf / infinity / nan, or a numeric literal
`digits [. digits] [e|E [sign] digits]` with at least one mantissa digit;
`none` models a raised `ValueError`.  (Unicode digits and underscore
separators are not modelled; identifier strings never contain them.
Finite values are exact rationals.) -/
def pyFloat (s : List Char) : Option PyFloat :=
  let t := pyStrip s
  let neg : Bool :=
    match t with
    | c :: _ => decide (c = '-')
    | [] => false
  let sign : ℚ :=
    match t with
    | c :: _ => if c = '-' then -1 else 1
    | [] => 1
  let core : List Char :=
    match t with
    | c :: r => if c = '-' ∨ c = '+' then r else c :: r
    | [] => []
  let ip := core.takeWhile Char.isDigit
  let afterIp := core.dropWhile Char.isDigit
  let afterDot : List Char :=
    match afterIp with
    | c :: r => if c = '.' then r else c :: r
    | [] => []
  let fr := afterDot.takeWhile Char.isDigit
  let afterFr := afterDot.dropWhile Char.isDigit
  if ip.length + fr.length = 0 then
    if asciiLower core = ("inf".data) ∨ asciiLower core = ("infinity".data) then
      some (PyFloat.infinite neg)
    else if asciiLower core = ("nan".data) then some PyFloat.nan
    else none
  else
    let mant : ℚ := (digitsToNat ip : ℚ) + (digitsToNat fr : ℚ) / (10 : ℚ) ^ fr.length
    match afterFr with
    | [] => some (PyFloat.finite (sign * mant))
    | e :: r =>
      if e = 'e' ∨ e = 'E' then
        match r with
        | [] => none
        | c :: r2 =>
          let ed : List Char := if c = '-' ∨ c = '+' then r2 else c :: r2
          if pyIsdigit ed then
            let scaled : ℚ :=
              if c = '-' then mant / (10 : ℚ) ^ digitsToNat ed
              else mant * (10 : ℚ) ^ digitsToNat ed
            some (PyFloat.finite (sign * scaled))
          else none
      else none

/-- The `except ValueError` fallback of `id_to_numeric`:
`re.match(r'^(\d+)', s)` — take the leading digits of `s`, or fail. -/
def leadingDigitsFallback (s : List Char) : Option PyFloat :=
  let d := s.takeWhile Char.isDigit
  if d.isEmpty then none else some (PyFloat.finite ((digitsToNat d : ℚ)))

/-- Embeds `id_to_numeric` from src/vlk_bot/utils.py:
strip the input; empty gives no value; if a `/` is present, parse the part
before the first `/` with `int()` and, when the part between the first and
second `/` is all digits, add it divided by 100; otherwise parse the whole
string with `float()`; on a parse error fall back to the leading digits. -/
def id_to_numeric (s0 : List Char) : Option PyFloat :=
  let s := pyStrip s0
  if s.isEmpty then none
  else if '/' ∈ s then
    let parts0 := s.takeWhile (fun c => c != '/')
    let parts1 := ((s.dropWhile (fun c => c != '/')).drop 1).takeWhile (fun c => c != '/')
    match pyInt parts0 with
    | none => leadingDigitsFallback s
    | some main =>
      let sub : Nat := if pyIsdigit parts1 then digitsToNat parts1 else 0
      some (PyFloat.finite ((main : ℚ) + (sub : ℚ) / 100))
  else
    match pyFloat s with
    | none => leadingDigitsFallback s
    | some v => some v

theorem isDigit_facts {c : Char} (h : c.isDigit = true) :
    c.isWhitespace = false ∧ c ≠ '/' ∧ c ≠ '-' ∧ c ≠ '+' := by
  refine ⟨?_, ?_, ?_, ?_⟩
  · cases hw : c.isWhitespace
    · rfl
    · exfalso
      simp only [Char.isWhitespace, Bool.or_eq_true, decide_eq_true_eq] at hw
      rcases hw with ((rfl | rfl) | rfl) | rfl <;> exact absurd h (by decide)
  · rintro rfl; exact absurd h (by decide)
  · rintro rfl; exact absurd h (by decide)
  · rintro rfl; exact absurd h (by decide)

theorem pyStrip_eq_self {s : List Char} (h : ∀ c ∈ s, c.isWhitespace = false) :
    pyStrip s = s := by
  unfold pyStrip
  rw [dropWhile_eq_self_of h,
    dropWhile_eq_self_of (fun c hc => h c (List.mem_reverse.mp hc)),
    List.reverse_reverse]

theorem pyFloat_digits {l : List Char} (hne : l ≠ [])
    (h : ∀ c ∈ l, c.isDigit = true) :
    pyFloat l = some (PyFloat.finite ((digitsToNat l : ℚ))) := by
  obtain ⟨c0, dt, rfl⟩ := List.exists_cons_of_ne_nil hne
  have hstrip : pyStrip (c0 :: dt) = c0 :: dt :=
    pyStrip_eq_self (fun c hc => (isDigit_facts (h c hc)).1)
  have hc0 := h c0 (List.mem_cons_self _ _)
  have hns : ¬(c0 = '-' ∨ c0 = '+') := by
    rintro (rfl | rfl) <;> exact absurd hc0 (by decide)
  have hnm : ¬(c0 = '-') := fun hh => hns (Or.inl hh)
  unfold pyFloat
  rw [hstrip]
  dsimp only
  rw [if_neg hns, if_neg hnm, takeWhile_eq_self_of h, dropWhile_eq_nil_of h]
  dsimp only
  simp only [List.takeWhile_nil, List.dropWhile_nil, List.length_nil]
  rw [if_neg (by simp)]
  refine congrArg some (congrArg PyFloat.finite ?_)
  rw [show digitsToNat ([] : List Char) = 0 from rfl]
  norm_num

theorem pyInt_digits {l : List Char} (hne : l ≠ [])
    (h : ∀ c ∈ l, c.isDigit = true) : pyInt l = some ((digitsToNat l : Int)) := by
  obtain ⟨c0, dt, rfl⟩ := List.exists_cons_of_ne_nil hne
  have hstrip : pyStrip (c0 :: dt) = c0 :: dt :=
    pyStrip_eq_self (fun c hc => (isDigit_facts (h c hc)).1)
  have hc0 := h c0 (List.mem_cons_self _ _)
  unfold pyInt
  rw [hstrip]
  dsimp only
  rw [if_neg (isDigit_facts hc0).2.2.1, if_neg (isDigit_facts hc0).2.2.2,
    if_pos]
  unfold pyIsdigit
  simp only [List.isEmpty_cons, Bool.not_false, Bool.true_and]
  exact List.all_eq_true.mpr h

/-- C5 (amended): `id_to_numeric` maps a pure digit string to its numeral
value and a digit string with a `/digits` suffix to the prefix value plus
the suffix value divided by 100 (so "4355" to 4355.0 and "4355/1" to
4355.01), and maps "abc" and the empty string to `none`.  (The original
claim further asserted `none` for EVERY input without leading digits; the
code violates that — signed, infinite and signed-slash inputs all yield
values — see `id_to_numeric_no_leading_digit_counterexample`.) -/
theorem id_to_numeric_spec (ds ss : List Char)
    (hd : ds ≠ []) (hda : ∀ c ∈ ds, c.isDigit = true)
    (hs : ss ≠ []) (hsa : ∀ c ∈ ss, c.isDigit = true) :
    id_to_numeric ds = some (PyFloat.finite ((digitsToNat ds : ℚ))) ∧
    id_to_numeric (ds ++ '/' :: ss) =
      some (PyFloat.finite ((digitsToNat ds : ℚ) + (digitsToNat ss : ℚ) / 100)) ∧
    id_to_numeric ("abc".data) = none ∧
    id_to_numeric [] = none := by
  have hdsn : ∀ c ∈ ds, (c != '/') = true :=
    fun c hc => bne_iff_ne.mpr (isDigit_facts (hda c hc)).2.1
  have hssn : ∀ c ∈ ss, (c != '/') = true :=
    fun c hc => bne_iff_ne.mpr (isDigit_facts (hsa c hc)).2.1
  refine ⟨?_, ?_, by decide, by decide⟩
  · -- pure digit string: the float branch applies
    have hstrip : pyStrip ds = ds :=
      pyStrip_eq_self (fun c hc => (isDigit_facts (hda c hc)).1)
    have hnoslash : ¬('/' ∈ ds) := fun hm => by
      have := hda '/' hm
      exact absurd this (by decide)
    unfold id_to_numeric
    rw [hstrip]
    rw [if_neg (by simp [List.isEmpty_iff, hd]), if_neg hnoslash,
      pyFloat_digits hd hda]
  · -- digit/digit string: the slash branch applies
    have hall : ∀ c ∈ ds ++ '/' :: ss, c.isWhitespace = false := by
      intro c hc
      rcases List.mem_append.mp hc with hc | hc
      · exact (isDigit_facts (hda c hc)).1
      · rcases List.mem_cons.mp hc with rfl | hc
        · decide
        · exact (isDigit_facts (hsa c hc)).1
    have hstrip : pyStrip (ds ++ '/' :: ss) = ds ++ '/' :: ss :=
      pyStrip_eq_self hall
    have hmem : '/' ∈ ds ++ '/' :: ss :=
      List.mem_append_right _ (List.mem_cons_self _ _)
    have hne2 : ds ++ '/' :: ss ≠ [] := by
      cases ds with
      | nil => exact absurd rfl hd
      | cons a l => simp
    have hparts0 : (ds ++ '/' :: ss).takeWhile (fun c => c != '/') = ds := by
      rw [takeWhile_append_all hdsn, List.takeWhile_cons]
      simp
    have hdrop : (ds ++ '/' :: ss).dropWhile (fun c => c != '/') = '/' :: ss := by
      rw [dropWhile_append_all hdsn, List.dropWhile_cons]
      simp
    have hparts1 : (('/' :: ss).drop 1).takeWhile (fun c => c != '/') = ss := by
      simp only [List.drop_succ_cons, List.drop_zero]
      exact takeWhile_eq_self_of hssn
    have hssdig : pyIsdigit ss = true := by
      unfold pyIsdigit
      simp only [Bool.and_eq_true, Bool.not_eq_true']
      exact ⟨by simp [List.isEmpty_iff, hs], List.all_eq_true.mpr hsa⟩
    unfold id_to_numeric
    rw [hstrip]
    rw [if_neg (by simp [List.isEmpty_iff, hne2]), if_pos hmem]
    rw [hparts0, hdrop, hparts1]
    dsimp only
    rw [pyInt_digits hd hda]
    dsimp only
    rw [if_pos hssdig]
    refine congrArg some (congrArg PyFloat.finite ?_)
    push_cast
    ring

/-- Witness for C5 on the spec examples "4355" and "4355/1" (and "abc"). -/
theorem id_to_numeric_spec_witness :
    id_to_numeric ("4355".data) = some (PyFloat.finite (4355 : ℚ)) ∧
    id_to_numeric (("4355".data) ++ '/' :: ("1".data)) =
      some (PyFloat.finite ((4355 : ℚ) + 1 / 100)) ∧
    id_to_numeric ("abc".data) = none := by
  have h := id_to_numeric_spec ("4355".data) ("1".data)
    (by decide) (by decide) (by decide) (by decide)
  have e1 : digitsToNat ("4355".data) = 4355 := by decide
  have e2 : digitsToNat ("1".data) = 1 := by decide
  refine ⟨h.1.trans ?_, h.2.1.trans ?_, h.2.2.1⟩
  · rw [e1]; norm_num
  · rw [e1, e2]; norm_num

/-- C5 counterexample to the original universal reading: the inputs "-5",
"inf" and "-3/4" all have no leading digits, yet `id_to_numeric` returns a
value for each — the signed `float()` parse yields -5.0, the infinity word
is accepted by `float()`, and the slash branch parses "-3" with `int()`
giving -3 + 4/100 = -2.96. -/
theorem id_to_numeric_no_leading_digit_counterexample :
    (['-', '5'] : List Char).takeWhile Char.isDigit = [] ∧
    id_to_numeric ['-', '5'] = some (PyFloat.finite (-5)) ∧
    (['i', 'n', 'f'] : List Char).takeWhile Char.isDigit = [] ∧
    id_to_numeric ['i', 'n', 'f'] = some (PyFloat.infinite false) ∧
    (['-', '3', '/', '4'] : List Char).takeWhile Char.isDigit = [] ∧
    id_to_numeric ['-', '3', '/', '4'] = some (PyFloat.finite (-74 / 25)) ∧
    id_to_numeric ['-', '5'] ≠ none := by
  have h1 : pyStrip ['-', '5'] = ['-', '5'] := by decide
  have hfl : pyFloat ['-', '5'] = some (PyFloat.finite (-5)) := by
    unfold pyFloat
    rw [h1]
    dsimp only
    rw [if_pos (Or.inl rfl), if_pos rfl,
      show List.takeWhile Char.isDigit ['5'] = ['5'] from by decide,
      show List.dropWhile Char.isDigit ['5'] = [] from by decide]
    dsimp only
    simp only [List.takeWhile_nil, List.dropWhile_nil, List.length_nil]
    rw [if_neg (by simp)]
    refine congrArg some (congrArg PyFloat.finite ?_)
    rw [show digitsToNat ['5'] = 5 from by decide,
      show digitsToNat ([] : List Char) = 0 from rfl]
    norm_num
  have hmain : id_to_numeric ['-', '5'] = some (PyFloat.finite (-5)) := by
    unfold id_to_numeric
    rw [h1]
    rw [if_neg (by decide), if_neg (by decide), hfl]
  have h34 : id_to_numeric ['-', '3', '/', '4'] =
      some (PyFloat.finite (-74 / 25)) := by
    have hs34 : pyStrip ['-', '3', '/', '4'] = ['-', '3', '/', '4'] := by decide
    have hint3 : pyInt ['-', '3'] = some (-3) := by decide
    unfold id_to_numeric
    rw [hs34]
    rw [if_neg (by decide), if_pos (by decide)]
    rw [show List.takeWhile (fun c => c != '/') ['-', '3', '/', '4'] = ['-', '3']
        from by decide,
      show ((List.dropWhile (fun c => c != '/') ['-', '3', '/', '4']).drop
          1).takeWhile (fun c => c != '/') = ['4'] from by decide]
    dsimp only
    rw [hint3]
    dsimp only
    rw [if_pos (by decide)]
    refine congrArg some (congrArg PyFloat.finite ?_)
    rw [show digitsToNat ['4'] = 4 from by decide]
    push_cast
    norm_num
  refine ⟨by decide, hmain, by decide, by decide, by decide, h34,
    by rw [hmain]; simp⟩

/-! ## Prediction engine (src/vlk_bot/prediction.py) -/

/-- The numeric library routines the prediction code calls, abstracted as
parameters of the embedding: numpy `exp`, numpy `sqrt`, scipy `t.ppf`
(quantile, degrees of freedom) and scipy `t.cdf` (point, dof, loc, scale),
where `tcdf` returning `none` models a raised exception (including a bad
`dist` dictionary).  Every theorem below holds for all values of these
oracles, so nothing is assumed about the concrete float routines. -/
structure Oracles where
  exp : ℚ → ℚ
  sqrt : ℚ → ℚ
  tppf : ℚ → ℚ → ℚ
  tcdf : ℚ → ℚ → ℚ → ℚ → Option ℚ

/-- One element of `processed_points` in
`calculate_prediction_from_attendance_json`: numeric identifier, ordinal of
the served date, walk-in flag.  (The JSON/strptime parsing preamble of the
Python function is modelled by taking the already-processed list; rows it
skips never reach the statistics.) -/
structure AttendancePoint where
  id : ℚ
  ordinal : Int
  is_live : Bool
deriving DecidableEq

/-- One row of `daily_stats` after `groupby('id').agg(ordinal=mean,
is_live=max)`. -/
structure GroupedPoint where
  id : ℚ
  ordinal : ℚ
  is_live : Bool
deriving DecidableEq

/-- The dictionary returned by `calculate_prediction_from_attendance_json`:
five bound dates (as day offsets from the anchor) plus the reusable
distribution descriptor and the point count. -/
structure Prediction where
  l90 : Int
  l50 : Int
  mean : Int
  h50 : Int
  h90 : Int
  loc : ℚ
  scale : ℚ
  df : ℚ
  data_points : Nat
deriving DecidableEq

/-- The distinct numeric identifiers of the corpus (the groupby keys). -/
def distinctIds (pts : List AttendancePoint) : List ℚ :=
  (pts.map (fun p => p.id)).dedup

/-- `points_df.groupby('id').agg({'ordinal': 'mean', 'is_live': 'max'})`:
one row per distinct identifier with the mean ordinal and the OR of the
walk-in flags. -/
def groupPoints (pts : List AttendancePoint) : List GroupedPoint :=
  (distinctIds pts).map (fun i =>
    let sel := pts.filter (fun p => decide (p.id = i))
    { id := i
      ordinal := (sel.map (fun p => ((p.ordinal : Int) : ℚ))).sum / (sel.length : ℚ)
      is_live := sel.any (fun p => p.is_live) })

def insertByOrd (g : GroupedPoint) : List GroupedPoint → List GroupedPoint
  | [] => [g]
  | h :: t => if g.ordinal ≤ h.ordinal then g :: h :: t else h :: insertByOrd g t

/-- `sort_values('ordinal')`, as a stable insertion sort.  (pandas sorts
the groupby keys ascending and then re-sorts by ordinal with an unstable
quicksort; the order of rows with equal mean ordinals is unspecified there,
and no theorem below depends on it.) -/
def sortByOrdinal : List GroupedPoint → List GroupedPoint
  | [] => []
  | h :: t => insertByOrd h (sortByOrdinal t)

/-- `daily_stats`: the grouped corpus sorted by mean ordinal. -/
def groupedOf (pts : List AttendancePoint) : List GroupedPoint :=
  sortByOrdinal (groupPoints pts)

theorem length_insertByOrd (g : GroupedPoint) (l : List GroupedPoint) :
    (insertByOrd g l).length = l.length + 1 := by
  induction l with
  | nil => rfl
  | cons h t ih =>
    unfold insertByOrd
    split
    · simp
    · simp [ih]

theorem length_sortByOrdinal (l : List GroupedPoint) :
    (sortByOrdinal l).length = l.length := by
  induction l with
  | nil => rfl
  | cons h t ih => simp [sortByOrdinal, length_insertByOrd, ih]

def weightExpMin : ℚ := -3
def weightExpMax : ℚ := 1
def liveQueueWeight : ℚ := 0

/-- `np.exp(weightExpMin + (np.arange(n) / (n - 1)) * (weightExpMax - weightExpMin))`. -/
def rawWeightsOf (O : Oracles) (n : Nat) : List ℚ :=
  (List.range n).map (fun i =>
    O.exp (weightExpMin + ((i : ℚ) / ((n : ℚ) - 1)) * (weightExpMax - weightExpMin)))

/-- The grouped rows paired with their final weights, after
`np.where(is_live_mask, weights * liveQueueWeight, weights)`. -/
def pairsOf (O : Oracles) (pts : List AttendancePoint) : List (GroupedPoint × ℚ) :=
  ((groupedOf pts).zip (rawWeightsOf O (groupedOf pts).length)).map
    (fun q => (q.1, if q.1.is_live then q.2 * liveQueueWeight else q.2))

def sumWOf (O : Oracles) (pts : List AttendancePoint) : ℚ :=
  ((pairsOf O pts).map (fun q => q.2)).sum

def sumWXOf (O : Oracles) (pts : List AttendancePoint) : ℚ :=
  ((pairsOf O pts).map (fun q => q.2 * q.1.id)).sum

def sumWYOf (O : Oracles) (pts : List AttendancePoint) : ℚ :=
  ((pairsOf O pts).map (fun q => q.2 * q.1.ordinal)).sum

def sumWXXOf (O : Oracles) (pts : List AttendancePoint) : ℚ :=
  ((pairsOf O pts).map (fun q => q.2 * q.1.id ^ 2)).sum

def sumWXYOf (O : Oracles) (pts : List AttendancePoint) : ℚ :=
  ((pairsOf O pts).map (fun q => q.2 * q.1.id * q.1.ordinal)).sum

/-- `denom = sumW * sumWXX - sumWX**2`. -/
def denomOf (O : Oracles) (pts : List AttendancePoint) : ℚ :=
  sumWOf O pts * sumWXXOf O pts - sumWXOf O pts ^ 2

def slopeOf (O : Oracles) (pts : List AttendancePoint) : ℚ :=
  (sumWOf O pts * sumWXYOf O pts - sumWXOf O pts * sumWYOf O pts) / denomOf O pts

def interceptOf (O : Oracles) (pts : List AttendancePoint) : ℚ :=
  (sumWYOf O pts - slopeOf O pts * sumWXOf O pts) / sumWOf O pts

def weightedMeanXOf (O : Oracles) (pts : List AttendancePoint) : ℚ :=
  sumWXOf O pts / sumWOf O pts

def weightedVarXOf (O : Oracles) (pts : List AttendancePoint) : ℚ :=
  ((pairsOf O pts).map (fun q => q.2 * (q.1.id - weightedMeanXOf O pts) ^ 2)).sum

def weightedSumResSqOf (O : Oracles) (pts : List AttendancePoint) : ℚ :=
  ((pairsOf O pts).map
    (fun q => q.2 * (q.1.ordinal - (slopeOf O pts * q.1.id + interceptOf O pts)) ^ 2)).sum

/-- `dof = sumW - 2`. -/
def dofOf (O : Oracles) (pts : List AttendancePoint) : ℚ :=
  sumWOf O pts - 2

def listMaxI : List Int → Int
  | [] => 0
  | h :: t => t.foldl max h

def listMaxQ : List ℚ → ℚ
  | [] => 0
  | h :: t => t.foldl max h

/-- `points_df['ordinal'].max()`: largest ordinal among all processed
attendance points (the list is nonempty whenever the engine accepts it). -/
def maxHistOrd (pts : List AttendancePoint) : Int :=
  listMaxI (pts.map (fun p => p.ordinal))

/-- `daily_stats['id'].max()`: largest grouped identifier. -/
def maxGroupedId (pts : List AttendancePoint) : ℚ :=
  listMaxQ ((groupedOf pts).map (fun g => g.id))

/-- Embeds the statistical core of `calculate_prediction_from_attendance_json`
(src/vlk_bot/prediction.py lines 91-179); the identical block in
`calculate_prediction_with_daily_data` (lines 217-306) is this same
computation.  Guards appear in source order (`< 5` twice, `denom == 0`,
`dof <= 0`); hoisting the `dof` guard above the pure arithmetic it skips
does not change any result. -/
def calculate_prediction_from_attendance_json
    (O : Oracles) (user_id : ℚ) (pts : List AttendancePoint) : Option Prediction :=
  if pts.length < 5 then none
  else if (groupedOf pts).length < 5 then none
  else if denomOf O pts = 0 then none
  else if dofOf O pts ≤ 0 then none
  else
    let mse := weightedSumResSqOf O pts / dofOf O pts
    let t90 := O.tppf (95 / 100) (dofOf O pts)
    let t50 := O.tppf (75 / 100) (dofOf O pts)
    let predOrd := slopeOf O pts * user_id + interceptOf O pts
    let term3 := (user_id - weightedMeanXOf O pts) ^ 2 / weightedVarXOf O pts
    let sePred := O.sqrt (mse * (1 + 1 / sumWOf O pts + term3))
    let margin90 := t90 * sePred
    let margin50 := t50 * sePred
    let min_feasible : Int := maxHistOrd pts + 1
    let l90_ord : ℚ :=
      if maxGroupedId pts < user_id then max (predOrd - margin90) ((min_feasible : Int) : ℚ)
      else predOrd - margin90
    let l50_ord : ℚ :=
      if maxGroupedId pts < user_id then max (predOrd - margin50) ((min_feasible : Int) : ℚ)
      else predOrd - margin50
    some
      { l90 := get_date_from_ordinal l90_ord
        l50 := get_date_from_ordinal l50_ord
        mean := get_date_from_ordinal predOrd
        h50 := get_date_from_ordinal (predOrd + margin50)
        h90 := get_date_from_ordinal (predOrd + margin90)
        loc := predOrd
        scale := sePred
        df := dofOf O pts
        data_points := pts.length }

/-- C4: whenever the corpus groups into fewer than 5 distinct identifiers,
or the weighted normal-equation denominator is zero, or the degrees of
freedom are not positive, the engine returns `none` — a normal result
value (the embedding is a total function, so no exception can escape). -/
theorem insufficient_data_guard (O : Oracles) (user_id : ℚ)
    (pts : List AttendancePoint)
    (h : (distinctIds pts).length < 5 ∨ denomOf O pts = 0 ∨ dofOf O pts ≤ 0) :
    calculate_prediction_from_attendance_json O user_id pts = none := by
  have hlen : (groupedOf pts).length = (distinctIds pts).length := by
    unfold groupedOf groupPoints
    rw [length_sortByOrdinal, List.length_map]
  unfold calculate_prediction_from_attendance_json
  split_ifs with h1 h2 h3 h4
  · rfl
  · rfl
  · rfl
  · rfl
  · exfalso
    rcases h with h | h | h
    · rw [hlen] at h2; omega
    · exact h3 h
    · exact h4 h

/-- Witness for C4: the empty corpus (0 distinct identifiers) is rejected. -/
theorem insufficient_data_guard_witness :
    (distinctIds []).length < 5 ∧
    calculate_prediction_from_attendance_json
      { exp := fun _ => 1, sqrt := fun _ => 0, tppf := fun _ _ => 0,
        tcdf := fun _ _ _ _ => none } 0 [] = none :=
  ⟨by decide, insufficient_data_guard _ 0 [] (Or.inl (by decide))⟩

/-! Auxiliary sum lemmas for the division-safety claim. -/

theorem sum_map_zero_of_nonneg {α : Type} {l : List α} {w : α → ℚ}
    (h0 : ∀ a ∈ l, 0 ≤ w a) (hs : (l.map w).sum = 0) : ∀ a ∈ l, w a = 0 := by
  induction l with
  | nil => intro a ha; cases ha
  | cons b t ih =>
    simp only [List.map_cons, List.sum_cons] at hs
    have hb := h0 b (List.mem_cons_self _ _)
    have ht : ∀ a ∈ t, 0 ≤ w a := fun a ha => h0 a (List.mem_cons_of_mem _ ha)
    have hts : 0 ≤ (t.map w).sum := by
      apply List.sum_nonneg
      intro x hx
      obtain ⟨a, ha, rfl⟩ := List.mem_map.mp hx
      exact ht a ha
    have hwb : w b = 0 := by linarith
    have hsum : (t.map w).sum = 0 := by linarith
    intro a ha
    rcases List.mem_cons.mp ha with rfl | ha
    · exact hwb
    · exact ih ht hsum a ha

theorem sum_map_mul_eq_zero {α : Type} {l : List α} {w : α → ℚ}
    (h : ∀ a ∈ l, w a = 0) (f : α → ℚ) :
    (l.map (fun a => w a * f a)).sum = 0 := by
  apply List.sum_eq_zero
  intro x hx
  obtain ⟨a, ha, rfl⟩ := List.mem_map.mp hx
  rw [h a ha, zero_mul]

theorem sum_w_sq_expand {α : Type} (l : List α) (w x : α → ℚ) (m : ℚ) :
    (l.map (fun a => w a * (x a - m) ^ 2)).sum =
      (l.map (fun a => w a * x a ^ 2)).sum
        - 2 * m * (l.map (fun a => w a * x a)).sum
        + m ^ 2 * (l.map w).sum := by
  induction l with
  | nil => simp
  | cons b t ih =>
    simp only [List.map_cons, List.sum_cons]
    rw [ih]
    ring

/-- Every final weight is nonnegative: a walk-in row gets
`exp(...) * liveQueueWeight = exp(...) * 0`, any other row gets a value of
the (positive) exponential. -/
theorem pairs_weight_nonneg (O : Oracles) (pts : List AttendancePoint)
    (hpos : ∀ x : ℚ, 0 < O.exp x) :
    ∀ q ∈ pairsOf O pts, 0 ≤ q.2 := by
  intro q hq
  unfold pairsOf at hq
  obtain ⟨p, hp, rfl⟩ := List.mem_map.mp hq
  obtain ⟨g, w⟩ := p
  have hw : w ∈ rawWeightsOf O (groupedOf pts).length := (List.of_mem_zip hp).2
  obtain ⟨i, hi, rfl⟩ := List.mem_map.mp hw
  by_cases hl : g.is_live
  · simp [hl, liveQueueWeight]
  · simp only [hl, if_false]
    exact le_of_lt (hpos _)

/-- C10: every division in the regression core is guarded.  With positive
exponential weights: (a) once `n = |groupedOf pts| ≥ 5` the divisor `n - 1`
of the weight formula is nonzero; (b) `sumW = 0` forces `denom = 0`, so the
`denom ≠ 0` guard implies `sumW ≠ 0`; and (c) under that guard the weighted
identifier variance is nonzero as well, via the identity
`denom = sumW * weightedVarX` — making the divisions by `denom`, `sumW` and
`weightedVarX` all safe. -/
theorem regression_divisions_guarded (O : Oracles) (pts : List AttendancePoint)
    (hpos : ∀ x : ℚ, 0 < O.exp x) :
    (5 ≤ (groupedOf pts).length → ((groupedOf pts).length : ℚ) - 1 ≠ 0) ∧
    (sumWOf O pts = 0 → denomOf O pts = 0) ∧
    (denomOf O pts ≠ 0 →
      sumWOf O pts ≠ 0 ∧ weightedVarXOf O pts ≠ 0 ∧
      denomOf O pts = sumWOf O pts * weightedVarXOf O pts) := by
  have hzero : sumWOf O pts = 0 → denomOf O pts = 0 := by
    intro hz
    have hall : ∀ q ∈ pairsOf O pts, (fun q : GroupedPoint × ℚ => q.2) q = 0 :=
      sum_map_zero_of_nonneg (pairs_weight_nonneg O pts hpos) hz
    have hX : sumWXOf O pts = 0 :=
      sum_map_mul_eq_zero hall (fun q => q.1.id)
    have hXX : sumWXXOf O pts = 0 :=
      sum_map_mul_eq_zero hall (fun q => q.1.id ^ 2)
    unfold denomOf
    rw [hz, hX, hXX]
    ring
  refine ⟨?_, hzero, ?_⟩
  · intro h5 heq
    have h1 : ((groupedOf pts).length : ℚ) = 1 := by linarith
    have h2 : (groupedOf pts).length = 1 := by exact_mod_cast h1
    omega
  · intro hdne
    have hW : sumWOf O pts ≠ 0 := fun hz => hdne (hzero hz)
    have hexp := sum_w_sq_expand (pairsOf O pts)
      (fun q => q.2) (fun q => q.1.id) (weightedMeanXOf O pts)
    have hvar : weightedVarXOf O pts =
        sumWXXOf O pts - 2 * weightedMeanXOf O pts * sumWXOf O pts
          + weightedMeanXOf O pts ^ 2 * sumWOf O pts := hexp
    have hid : denomOf O pts = sumWOf O pts * weightedVarXOf O pts := by
      rw [hvar]
      unfold weightedMeanXOf denomOf
      field_simp
      ring
    refine ⟨hW, ?_, hid⟩
    intro hv
    rw [hid, hv, mul_zero] at hdne
    exact hdne rfl

/-- C1: whenever the engine accepts a corpus and the queried identifier
exceeds every grouped identifier, the returned 90% and 50% lower-bound
dates have ordinals at least `maxHistOrd pts + 1` — never in the
already-observed past. -/
theorem future_floor (O : Oracles) (user_id : ℚ) (pts : List AttendancePoint)
    (pred : Prediction)
    (hres : calculate_prediction_from_attendance_json O user_id pts = some pred)
    (hgt : maxGroupedId pts < user_id) :
    maxHistOrd pts + 1 ≤ get_ordinal_date pred.l90 ∧
    maxHistOrd pts + 1 ≤ get_ordinal_date pred.l50 := by
  unfold calculate_prediction_from_attendance_json at hres
  split_ifs at hres with h1 h2 h3 h4
  dsimp only at hres
  obtain rfl := Option.some.inj hres
  dsimp only
  constructor
  · rw [ordinal_of_date_from_ordinal]
    exact le_pyTrunc (le_max_right _ _)
  · rw [ordinal_of_date_from_ordinal]
    exact le_pyTrunc (le_max_right _ _)

def oracleOne : Oracles :=
  { exp := fun _ => 1, sqrt := fun _ => 0, tppf := fun _ _ => 0,
    tcdf := fun _ _ _ _ => none }

/-! Concrete corpus used by the witnesses: five scheduled points with
identifiers 1..5 served on ordinals 1..5 (five consecutive business days). -/

def pts5 : List AttendancePoint :=
  [⟨1, 1, false⟩, ⟨2, 2, false⟩, ⟨3, 3, false⟩, ⟨4, 4, false⟩, ⟨5, 5, false⟩]

def grp5 : List GroupedPoint :=
  [⟨1, 1, false⟩, ⟨2, 2, false⟩, ⟨3, 3, false⟩, ⟨4, 4, false⟩, ⟨5, 5, false⟩]

theorem pts5_grouped : groupedOf pts5 = grp5 := by
  norm_num [groupedOf, groupPoints, distinctIds, pts5, grp5, sortByOrdinal, insertByOrd,
    List.dedup_cons_of_not_mem, List.dedup_nil, List.filter]

theorem pts5_pairs : pairsOf oracleOne pts5 =
    [(⟨1, 1, false⟩, 1), (⟨2, 2, false⟩, 1), (⟨3, 3, false⟩, 1),
     (⟨4, 4, false⟩, 1), (⟨5, 5, false⟩, 1)] := by
  norm_num [pairsOf, pts5_grouped, grp5, rawWeightsOf, oracleOne, List.range_succ]

theorem pts5_sumW : sumWOf oracleOne pts5 = 5 := by norm_num [sumWOf, pts5_pairs]

theorem pts5_sumWX : sumWXOf oracleOne pts5 = 15 := by norm_num [sumWXOf, pts5_pairs]

theorem pts5_sumWY : sumWYOf oracleOne pts5 = 15 := by norm_num [sumWYOf, pts5_pairs]

theorem pts5_sumWXX : sumWXXOf oracleOne pts5 = 55 := by norm_num [sumWXXOf, pts5_pairs]

theorem pts5_sumWXY : sumWXYOf oracleOne pts5 = 55 := by norm_num [sumWXYOf, pts5_pairs]

theorem pts5_denom : denomOf oracleOne pts5 = 50 := by
  norm_num [denomOf, pts5_sumW, pts5_sumWX, pts5_sumWXX]

theorem pts5_dof : dofOf oracleOne pts5 = 3 := by norm_num [dofOf, pts5_sumW]

theorem pts5_slope : slopeOf oracleOne pts5 = 1 := by
  norm_num [slopeOf, pts5_denom, pts5_sumW, pts5_sumWXY, pts5_sumWX, pts5_sumWY]

theorem pts5_intercept : interceptOf oracleOne pts5 = 0 := by
  norm_num [interceptOf, pts5_slope, pts5_sumWY, pts5_sumWX, pts5_sumW]

theorem pts5_meanX : weightedMeanXOf oracleOne pts5 = 3 := by
  norm_num [weightedMeanXOf, pts5_sumWX, pts5_sumW]

theorem pts5_varX : weightedVarXOf oracleOne pts5 = 10 := by
  norm_num [weightedVarXOf, pts5_pairs, pts5_meanX]

theorem pts5_wrss : weightedSumResSqOf oracleOne pts5 = 0 := by
  norm_num [weightedSumResSqOf, pts5_pairs, pts5_slope, pts5_intercept]

theorem pts5_maxHist : maxHistOrd pts5 = 5 := by decide

theorem pts5_maxId : maxGroupedId pts5 = 5 := by
  norm_num [maxGroupedId, pts5_grouped, grp5, listMaxQ, max_def]

theorem pts5_len : pts5.length = 5 := rfl

theorem pts5_glen : (groupedOf pts5).length = 5 := by rw [pts5_grouped]; rfl

theorem oracleOne_tppf : ∀ a b : ℚ, oracleOne.tppf a b = 0 := fun _ _ => rfl

theorem oracleOne_sqrt : ∀ a : ℚ, oracleOne.sqrt a = 0 := fun _ => rfl

theorem pyTrunc_six : pyTrunc (6 : ℚ) = 6 := by norm_num [pyTrunc]

theorem date_from_ordinal_six : get_date_from_ordinal (6 : ℚ) = 8 := by
  unfold get_date_from_ordinal
  rw [pyTrunc_six]
  decide

/-- The concrete prediction for identifier 6 over `pts5` with the
constant-1 oracle family: all bounds land on ordinal 6 = day offset 8. -/
theorem pts5_prediction : calculate_prediction_from_attendance_json oracleOne 6 pts5 =
    some ⟨8, 8, 8, 8, 8, 6, 0, 3, 5⟩ := by
  norm_num [calculate_prediction_from_attendance_json, pts5_len, pts5_glen, pts5_denom,
    pts5_dof, pts5_wrss, oracleOne_tppf, oracleOne_sqrt, pts5_slope, pts5_intercept,
    pts5_meanX, pts5_varX, pts5_sumW, pts5_maxHist, pts5_maxId,
    date_from_ordinal_six, max_def, Prediction.mk.injEq]

/-- Witness for C1: querying identifier 6 (> max grouped id 5) over `pts5`
yields a prediction whose lower-bound ordinals are ≥ maxHistOrd + 1 = 6. -/
theorem future_floor_witness :
    calculate_prediction_from_attendance_json oracleOne 6 pts5 =
      some ⟨8, 8, 8, 8, 8, 6, 0, 3, 5⟩ ∧
    maxGroupedId pts5 < 6 ∧
    maxHistOrd pts5 + 1 ≤
      get_ordinal_date (Prediction.l90 ⟨8, 8, 8, 8, 8, 6, 0, 3, 5⟩) ∧
    maxHistOrd pts5 + 1 ≤
      get_ordinal_date (Prediction.l50 ⟨8, 8, 8, 8, 8, 6, 0, 3, 5⟩) := by
  have hgt : maxGroupedId pts5 < 6 := by rw [pts5_maxId]; norm_num
  have h := future_floor oracleOne 6 pts5 ⟨8, 8, 8, 8, 8, 6, 0, 3, 5⟩
    pts5_prediction hgt
  exact ⟨pts5_prediction, hgt, h.1, h.2⟩

/-- Witness for C10: with the constant-1 exponential oracle and the empty
corpus, `sumW = 0` and the theorem yields `denom = 0`. -/
theorem regression_divisions_guarded_witness :
    denomOf oracleOne [] = 0 :=
  (regression_divisions_guarded oracleOne [] (fun _ => one_pos)).2.1 rfl

/-! ## Cumulative date probability (src/vlk_bot/prediction.py,
calculate_date_probability) -/

/-- Embeds `calculate_date_probability`: the Student-t cdf is evaluated at
`ordinal(date) + 1` (day-start to day-end offset) and scaled to percent;
the surrounding `try/except` returns 0.0 when the computation raises, which
the `tcdf` oracle models by returning `none`. -/
def calculate_date_probability (O : Oracles) (d : Int) (loc scale df : ℚ) : ℚ :=
  match O.tcdf (((get_ordinal_date d : Int) : ℚ) + 1) df loc scale with
  | some p => p * 100
  | none => 0

/-- C6: for every date and distribution descriptor, the result is the
Student-t cdf at `ordinal(date) + 1` times 100, and any raising evaluation
degrades to 0.0 instead of propagating. -/
theorem cumulative_probability_spec (O : Oracles) (d : Int)
    (loc scale df p : ℚ) :
    (O.tcdf (((get_ordinal_date d : Int) : ℚ) + 1) df loc scale = some p →
      calculate_date_probability O d loc scale df = p * 100) ∧
    (O.tcdf (((get_ordinal_date d : Int) : ℚ) + 1) df loc scale = none →
      calculate_date_probability O d loc scale df = 0) := by
  unfold calculate_date_probability
  constructor <;> intro h <;> rw [h]

def oracleCdfHalf : Oracles :=
  { exp := fun _ => 1, sqrt := fun _ => 0, tppf := fun _ _ => 0,
    tcdf := fun _ _ _ _ => some (1 / 2) }

/-- Witness for C6: an oracle whose cdf returns 1/2 yields 50%, and one
whose cdf raises yields 0. -/
theorem cumulative_probability_spec_witness :
    calculate_date_probability oracleCdfHalf 0 0 1 3 = (1 / 2) * 100 ∧
    calculate_date_probability oracleOne 0 0 1 3 = 0 :=
  ⟨(cumulative_probability_spec oracleCdfHalf 0 0 1 3 (1 / 2)).1 rfl,
   (cumulative_probability_spec oracleOne 0 0 1 3 0).2 rfl⟩

/-! ## Queue-admission eligibility checker
(src/VLK_Zakrevskoho_81_BOT.py, check_id_for_queue) -/

/-- The possible messages of `check_id_for_queue`, abstracted from the
literal Ukrainian strings: the empty message, the data-loading error text,
the rule-8 "last attempt" warning, and the text stating the number of
missed days. -/
inductive EligMsg
  | noMsg
  | dataError
  | lastAttempt
  | missedDays (n : Nat)
deriving DecidableEq

/-- `act_working_day`: today stepped back to the latest business day (the
source while-loop runs at most twice: Saturday and Sunday step back to
Friday, a weekday stays put). -/
def actWorkingDay (today : Int) : Int :=
  if today % 7 = 5 then today - 1
  else if today % 7 = 6 then today - 2
  else today

/-- `stats_df['Останній номер що зайшов'][::-1].cummax()[::-1]`: the
running suffix maximum of the last-identifier-served column. -/
def suffixMaxes : List ℚ → List ℚ
  | [] => []
  | x :: t =>
    match suffixMaxes t with
    | [] => [x]
    | y :: r => max x y :: y :: r

/-- `delay_days = stats_df[stats_df['Cum_Max'] > user_id].shape[0]`. -/
def delayDays (stats : List ℚ) (uid : ℚ) : Nat :=
  ((suffixMaxes stats).filter (fun v => decide (uid < v))).length

/-- `stats_df['Останній номер що зайшов'].max()` (via `idxmax`). -/
def maxLastServed : List ℚ → ℚ
  | [] => 0
  | h :: t => t.foldl max h

/-- Rule 2 of the checker: the stored booking parses to a date strictly
after the current business day and its status is the accepted one
(`user_last_status in ['Ухвалено']`); a failed `strptime` is the `none`
case of `prevDate`. -/
def hasFutureApproved (prevDate : Option Int) (lastStatus : String)
    (today : Int) : Bool :=
  match prevDate with
  | some pd => decide (actWorkingDay today < pd) && decide (lastStatus = "Ухвалено")
  | none => false

/-- Embeds `check_id_for_queue` (src/VLK_Zakrevskoho_81_BOT.py lines
645-687).  `stats` is the last-identifier-served column of the summary
table in table order; dates are day offsets from the anchor.  (The unused
`next_working_day` computation of the source is omitted.) -/
def check_id_for_queue (stats : List ℚ) (uid : ℚ) (prevDate : Option Int)
    (lastStatus : String) (today : Int) : Bool × EligMsg :=
  match stats with
  | [] => (false, .dataError)
  | h :: t =>
    if maxLastServed (h :: t) ≤ uid then (true, .noMsg)
    else if hasFutureApproved prevDate lastStatus today then (true, .noMsg)
    else if delayDays (h :: t) uid ≤ 1 then (true, .lastAttempt)
    else (false, .missedDays (delayDays (h :: t) uid))

/-- C8: the eligibility rules fire in order with first match winning —
`uid ≥ max(lastServed)` is eligible with no warning; otherwise a prior
accepted booking strictly after the current business day is eligible with
no warning; otherwise with `N` the number of summary rows whose suffix
maximum of last-served exceeds `uid`, `N ≤ 1` is eligible with the "last
attempt" warning and `N > 1` is ineligible with a message naming exactly
`N` missed days. -/
theorem check_id_for_queue_rules (stats : List ℚ) (uid : ℚ)
    (prevDate : Option Int) (lastStatus : String) (today : Int)
    (hne : stats ≠ []) :
    (maxLastServed stats ≤ uid →
      check_id_for_queue stats uid prevDate lastStatus today = (true, .noMsg)) ∧
    (¬ maxLastServed stats ≤ uid →
      hasFutureApproved prevDate lastStatus today = true →
      check_id_for_queue stats uid prevDate lastStatus today = (true, .noMsg)) ∧
    (¬ maxLastServed stats ≤ uid →
      hasFutureApproved prevDate lastStatus today = false →
      delayDays stats uid ≤ 1 →
      check_id_for_queue stats uid prevDate lastStatus today = (true, .lastAttempt)) ∧
    (¬ maxLastServed stats ≤ uid →
      hasFutureApproved prevDate lastStatus today = false →
      1 < delayDays stats uid →
      check_id_for_queue stats uid prevDate lastStatus today =
        (false, .missedDays (delayDays stats uid))) := by
  obtain ⟨h, t, rfl⟩ := List.exists_cons_of_ne_nil hne
  refine ⟨fun h1 => ?_, fun h1 h2 => ?_, fun h1 h2 h3 => ?_, fun h1 h2 h3 => ?_⟩
  · unfold check_id_for_queue
    dsimp only
    rw [if_pos h1]
  · unfold check_id_for_queue
    dsimp only
    rw [if_neg h1, h2]
    simp
  · unfold check_id_for_queue
    dsimp only
    rw [if_neg h1, h2]
    simp only [Bool.false_eq_true, if_false]
    rw [if_pos h3]
  · unfold check_id_for_queue
    dsimp only
    rw [if_neg h1, h2]
    simp only [Bool.false_eq_true, if_false]
    rw [if_neg (by omega)]

/-- Witness for C8 (end-to-end scenario C): queried id 100 against the
summary column [150, 150, 150], no prior booking — every suffix maximum
exceeds 100, so 3 days were missed and the check is ineligible. -/
theorem check_id_for_queue_rules_witness :
    check_id_for_queue [150, 150, 150] 100 none "" 0 =
      (false, EligMsg.missedDays 3) := by
  have hdelay : delayDays [150, 150, 150] 100 = 3 := by decide
  have h := (check_id_for_queue_rules [150, 150, 150] 100 none "" 0
    (by decide)).2.2.2 (by decide) rfl (by rw [hdelay]; norm_num)
  rw [hdelay] at h
  exact h

/-! ## Attendance status classification (src/vlk_bot/sync.py) -/

/-- Python `str.lower()` modelled on the alphabets that occur in the
sheets: ASCII letters and the Cyrillic block (U+0410-U+042F shifts by 32,
U+0400-U+040F shifts by 80, U+0490 maps to U+0491); every other character
is unchanged. -/
def pyLowerChar (c : Char) : Char :=
  if 65 ≤ c.toNat ∧ c.toNat ≤ 90 then Char.ofNat (c.toNat + 32)
  else if 0x410 ≤ c.toNat ∧ c.toNat ≤ 0x42F then Char.ofNat (c.toNat + 32)
  else if 0x400 ≤ c.toNat ∧ c.toNat ≤ 0x40F then Char.ofNat (c.toNat + 80)
  else if c.toNat = 0x490 then Char.ofNat 0x491
  else c

def pyLower (s : List Char) : List Char := s.map pyLowerChar

/-- `pat` is a leading segment of the second list. -/
def leadsWith : List Char → List Char → Bool
  | [], _ => true
  | _ :: _, [] => false
  | a :: pa, b :: sb => a == b && leadsWith pa sb

/-- Python substring containment `pat in s` (contiguous). -/
def hasSub (pat : List Char) : List Char → Bool
  | [] => leadsWith pat []
  | c :: rest => leadsWith pat (c :: rest) || hasSub pat rest

/-- The apostrophe character of the no-show marker, by code point. -/
def apoChar : Char := Char.ofNat 39

def markerEntered : List Char := "зайшов".data

def markerNotEntered : List Char := "не зайшов".data

def markerNoShow : List Char := ("не з".data) ++ apoChar :: ("явився".data)

def markerPostponed : List Char := "відклав".data

inductive RowStatus
  | attended
  | noShow
  | postponed
  | other
deriving DecidableEq

/-- Embeds the status-classification chain of
`parse_daily_sheet_attendance` (src/vlk_bot/sync.py lines 262-270); the
attended-branch condition is character-identical in
`extract_attended_ids_from_sheet` (lines 320-327): a row counts as
attended only when the lowercased status contains the entered marker and
neither negation marker, the negation branch being checked next. -/
def classifyStatus (status : List Char) : RowStatus :=
  let sl := pyLower status
  if hasSub markerEntered sl && !hasSub markerNotEntered sl &&
      !hasSub markerNoShow sl then .attended
  else if hasSub markerNotEntered sl || hasSub markerNoShow sl then .noShow
  else if hasSub markerPostponed sl then .postponed
  else .other

/-- The spec example status text, uppercased initial letter and all:
"Ne zajshov (ne z-javyvsja)" in Cyrillic. -/
def exampleNoShowStatus : List Char :=
  ("Не зайшов (не з".data) ++ apoChar :: ("явився)".data)

/-- C9: negation wins over the affirmative substring — any status whose
lowercase form contains a negation marker classifies as no-show and never
as attended; a status classifying as attended must contain the entered
marker and neither negation marker; and the concrete spec example
classifies as no-show despite containing the entered substring. -/
theorem status_negation_precedence (s t : List Char)
    (hs : hasSub markerNotEntered (pyLower s) = true ∨
      hasSub markerNoShow (pyLower s) = true)
    (ht : classifyStatus t = RowStatus.attended) :
    classifyStatus s = RowStatus.noShow ∧
    classifyStatus s ≠ RowStatus.attended ∧
    hasSub markerEntered (pyLower t) = true ∧
    hasSub markerNotEntered (pyLower t) = false ∧
    hasSub markerNoShow (pyLower t) = false ∧
    classifyStatus exampleNoShowStatus = RowStatus.noShow := by
  have hcls : classifyStatus s = RowStatus.noShow := by
    unfold classifyStatus
    dsimp only
    rcases hs with hh | hh <;> rw [hh] <;> simp
  have hattended : hasSub markerEntered (pyLower t) = true ∧
      hasSub markerNotEntered (pyLower t) = false ∧
      hasSub markerNoShow (pyLower t) = false := by
    unfold classifyStatus at ht
    dsimp only at ht
    by_cases h1 : (hasSub markerEntered (pyLower t) &&
        !hasSub markerNotEntered (pyLower t) &&
        !hasSub markerNoShow (pyLower t)) = true
    · obtain ⟨⟨ha, hb⟩, hc⟩ : (hasSub markerEntered (pyLower t) = true ∧
          hasSub markerNotEntered (pyLower t) = false) ∧
          hasSub markerNoShow (pyLower t) = false := by
        simpa [Bool.and_eq_true, Bool.not_eq_true'] using h1
      exact ⟨ha, hb, hc⟩
    · rw [if_neg h1] at ht
      split_ifs at ht
  refine ⟨hcls, by rw [hcls]; decide, hattended.1, hattended.2.1, hattended.2.2, ?_⟩
  decide

/-- Witness for C9 at the spec example (negated status) and the plain
entered status "Зайшов". -/
theorem status_negation_precedence_witness :
    classifyStatus exampleNoShowStatus = RowStatus.noShow ∧
    classifyStatus exampleNoShowStatus ≠ RowStatus.attended ∧
    hasSub markerEntered (pyLower ("Зайшов".data)) = true ∧
    hasSub markerNotEntered (pyLower ("Зайшов".data)) = false ∧
    hasSub markerNoShow (pyLower ("Зайшов".data)) = false ∧
    classifyStatus exampleNoShowStatus = RowStatus.noShow :=
  status_negation_precedence exampleNoShowStatus ("Зайшов".data)
    (Or.inl (by decide)) (by decide)

end Vlk
